import Mathlib

/-!
Shallow embedding of the argument-vector library in `src/client/argv.c`.

Strings are modelled as lists of characters (a C string never contains the
terminator, so the terminator is represented by the end of the list),
argument vectors as lists of such lists, the file system consulted by
`expandargv` as a function from paths to file states, and the two fatal
`exit (1)` paths of `expandargv` as error results of an `Except` type.

The tokenizer `buildargv` consumes at least one character of its input per
iteration of its outer do-while loop, so the loop is embedded as a
structurally recursive function `buildargvFuel` supplied with fuel
`input.length + 1`; the theorem `buildargvFuel_congr` below shows that any
fuel larger than `input.length` gives the same value, so the fuel is
irrelevant.  The expander loop of `expandargv` is embedded by well-founded
recursion on the pair (remaining iteration budget, distance of the scan
cursor from the end of the vector).
-/

/-- Backslash character (code 92). -/
def bsChar : Char := Char.ofNat 92

/-- Single-quote character (code 39). -/
def sqChar : Char := Char.ofNat 39

/-- Double-quote character (code 34). -/
def dqChar : Char := Char.ofNat 34

/-- C `isspace` in the default locale: space, horizontal tab, line feed,
vertical tab, form feed, carriage return. -/
def isspace (c : Char) : Bool :=
  c = Char.ofNat 32 || c = Char.ofNat 9 || c = Char.ofNat 10 ||
    c = Char.ofNat 11 || c = Char.ofNat 12 || c = Char.ofNat 13

/-- Model of `consume_whitespace` in `argv.c`: advance the input pointer
past every leading whitespace character. -/
def consume_whitespace (s : List Char) : List Char :=
  s.dropWhile isspace

/-- Model of `only_whitespace` in `argv.c`: walk the string while it shows
whitespace and report whether its end was reached. -/
def only_whitespace : List Char → Bool
  | [] => true
  | c :: t => isspace c && only_whitespace t

/-- Result of scanning a single argument in the inner while loop of
`buildargv`: the characters written to the working buffer for this
argument, the not yet consumed input, and the values of the three
quoting-state flags when the scan stopped. -/
structure ScanResult where
  arg : List Char
  rest : List Char
  squote : Bool
  dquote : Bool
  bsquote : Bool
deriving DecidableEq, Repr

/-- Write one character to the front of the working buffer of a scan
result (the model of `*arg++ = *input`). -/
def consArg (c : Char) (r : ScanResult) : ScanResult :=
  ⟨c :: r.arg, r.rest, r.squote, r.dquote, r.bsquote⟩

/-- Model of the inner `while (*input != EOS)` loop of `buildargv`
(lines 216-272 of `argv.c`): scan one argument.  The branches appear in
the exact order of the C code: the break on unquoted unescaped
whitespace, then the pending-escape copy, then the test that starts
escape mode (note that this test comes before the single- and
double-quote handling), then the single-quote state, the double-quote
state, and finally the quote-free state. -/
def scanArg : List Char → Bool → Bool → Bool → ScanResult
  | [], squote, dquote, bsquote => ⟨[], [], squote, dquote, bsquote⟩
  | c :: rest, squote, dquote, bsquote =>
    if isspace c && !squote && !dquote && !bsquote then
      ⟨[], c :: rest, squote, dquote, bsquote⟩
    else if bsquote then
      consArg c (scanArg rest squote dquote false)
    else if c = bsChar then
      scanArg rest squote dquote true
    else if squote then
      if c = sqChar then scanArg rest false dquote bsquote
      else consArg c (scanArg rest squote dquote bsquote)
    else if dquote then
      if c = dqChar then scanArg rest squote false bsquote
      else consArg c (scanArg rest squote dquote bsquote)
    else
      if c = sqChar then scanArg rest true dquote bsquote
      else if c = dqChar then scanArg rest squote true bsquote
      else consArg c (scanArg rest squote dquote bsquote)

/-- Model of the outer do-while loop of `buildargv` (lines 193-280 of
`argv.c`), with explicit fuel: consume leading whitespace, scan one
argument, record it, consume trailing whitespace, and loop while input
remains.  The loop body always runs at least once.  Fuel zero is never
reached when the function is started with fuel `s.length + 1`, because
every further iteration consumes at least one character (see
`buildargvFuel_congr`). -/
def buildargvFuel : Nat → List Char → Bool → Bool → Bool → List (List Char)
  | 0, _, _, _, _ => []
  | fuel + 1, s, squote, dquote, bsquote =>
    if (consume_whitespace (scanArg (consume_whitespace s) squote dquote bsquote).rest) = [] then
      [(scanArg (consume_whitespace s) squote dquote bsquote).arg]
    else
      (scanArg (consume_whitespace s) squote dquote bsquote).arg ::
        buildargvFuel fuel
          (consume_whitespace (scanArg (consume_whitespace s) squote dquote bsquote).rest)
          (scanArg (consume_whitespace s) squote dquote bsquote).squote
          (scanArg (consume_whitespace s) squote dquote bsquote).dquote
          (scanArg (consume_whitespace s) squote dquote bsquote).bsquote

/-- The do-while loop of `buildargv` started on input `s` with the three
quoting-state flags as given (all are zero on entry from `buildargv`). -/
def buildargvLoop (s : List Char) (squote dquote bsquote : Bool) : List (List Char) :=
  buildargvFuel (s.length + 1) s squote dquote bsquote

/-- Model of `buildargv`: a `NULL` input pointer gives a `NULL` result;
otherwise the string is split by the do-while loop with all quoting
flags clear. -/
def buildargv : Option (List Char) → Option (List (List Char))
  | none => none
  | some input => some (buildargvLoop input false false false)

/-- State of a path in the file system visible to `expandargv`: `stat`
failure (including a nonexistent file), a path that can be statted but
not opened or read, a directory, or a readable file with the given full
contents. -/
inductive FsEntry where
  | missing
  | unreadable
  | directory
  | readable (contents : List Char)
deriving DecidableEq, Repr

/-- The two fatal conditions of `expandargv`, each of which prints one
diagnostic line to the error stream and calls `exit (1)`. -/
inductive AbortReason where
  | tooManyAtFiles
  | atFileIsDirectory
deriving DecidableEq, Repr

/-- Model of the string duplication of `dupargv` on a single element. -/
def strdupElem (s : List Char) : List Char :=
  s.map (fun c => c)

/-- Model of `dupargv` on a non-null vector: a new vector in which every
element is a fresh copy of the corresponding original element. -/
def dupargvList (argv : List (List Char)) : List (List Char) :=
  argv.map strdupElem

/-- Model of `dupargv`: `NULL` maps to `NULL`, a vector to a deep copy. -/
def dupargv : Option (List (List Char)) → Option (List (List Char))
  | none => none
  | some argv => some (dupargvList argv)

/-- Model of the `while (++i < *argcp)` loop of `expandargv`
(lines 321-426 of `argv.c`).

The state carries the scan position `i` (the element examined next is
`argv[i + 1]`, matching the pre-increment of the C loop), the current
vector `argv` (whose length plays the role of `*argcp`), the remaining
iteration budget `limit` (`iteration_limit`), and `copied`, the model of
the pointer comparison `*argvp == original_argv` (false while the
caller-supplied storage is still in use, true once the vector has been
deep-copied by `dupargv`).  The result is either a fatal abort or the
final vector together with the `copied` flag.

Branch order follows the C code: the `filename[0] != '@'` test, then the
budget decrement and its zero test, then the `stat` outcome (failure
skips the element, a directory aborts), then open or read failure (which
also skips the element), then tokenization of the contents, with a
whitespace-only file yielding an empty replacement, then the
copy-on-first-write duplication, the splice, and the cursor step-back
`--i` (modelled by recursing with the same `i`). -/
def expandLoop (fs : List Char → FsEntry) (i : Nat) (argv : List (List Char))
    (limit : Nat) (copied : Bool) : Except AbortReason (List (List Char) × Bool) :=
  if _h : i + 1 < argv.length then
    match argv.getD (i + 1) [] with
    | '@' :: path =>
      if _hl : limit - 1 = 0 then
        Except.error AbortReason.tooManyAtFiles
      else
        match fs path with
        | FsEntry.missing => expandLoop fs (i + 1) argv (limit - 1) copied
        | FsEntry.unreadable => expandLoop fs (i + 1) argv (limit - 1) copied
        | FsEntry.directory => Except.error AbortReason.atFileIsDirectory
        | FsEntry.readable contents =>
          expandLoop fs i
            ((if copied then argv else dupargvList argv).take (i + 1) ++
              (if only_whitespace contents then [] else buildargvLoop contents false false false) ++
              (if copied then argv else dupargvList argv).drop (i + 2))
            (limit - 1) true
    | _ => expandLoop fs (i + 1) argv limit copied
  else
    Except.ok (argv, copied)
termination_by (limit, argv.length - i)
decreasing_by
  all_goals first
    | (apply Prod.Lex.right; omega)
    | (apply Prod.Lex.left; omega)

/-- Model of `expandargv`: scan the vector from position 1 with the
budget `iteration_limit = 2000` and the caller-supplied storage still in
place. -/
def expandargv (fs : List Char → FsEntry) (argv : List (List Char)) :
    Except AbortReason (List (List Char) × Bool) :=
  expandLoop fs 0 argv 2000 false

/-- File system of the worked response-file example of the
specification: the path r names a readable file holding the five
characters dash a space dash b; every other path is absent. -/
def respFs : List Char → FsEntry := fun p =>
  if p = ['r'] then FsEntry.readable ['-', 'a', ' ', '-', 'b'] else FsEntry.missing

/-- Dropping a prefix never lengthens a list. -/
theorem dropWhile_length_le {α : Type} (p : α → Bool) :
    ∀ s : List α, (s.dropWhile p).length ≤ s.length
  | [] => by simp
  | a :: t => by
    by_cases h : p a
    · rw [List.dropWhile_cons_of_pos h]
      exact Nat.le_trans (dropWhile_length_le p t) (Nat.le_succ _)
    · rw [List.dropWhile_cons_of_neg h]

/-- Consuming whitespace never lengthens the input. -/
theorem consume_whitespace_length_le (s : List Char) :
    (consume_whitespace s).length ≤ s.length :=
  dropWhile_length_le isspace s

/-- The characters written for one argument plus the input left over
never exceed the input given to the scan: every write consumes at least
one input character.  This is the bound that keeps the working buffer
`copybuf` of size `strlen (input) + 1` from overflowing. -/
theorem scanArg_le : ∀ (s : List Char) (squote dquote bsquote : Bool),
    (scanArg s squote dquote bsquote).arg.length +
        (scanArg s squote dquote bsquote).rest.length ≤ s.length
  | [], _, _, _ => by simp [scanArg]
  | c :: t, squote, dquote, bsquote => by
    have h1 := scanArg_le t squote dquote false
    have h2 := scanArg_le t squote dquote true
    have h3 := scanArg_le t false dquote bsquote
    have h4 := scanArg_le t squote dquote bsquote
    have h5 := scanArg_le t squote false bsquote
    have h6 := scanArg_le t true dquote bsquote
    have h7 := scanArg_le t squote true bsquote
    simp only [scanArg]
    split_ifs <;> simp only [consArg, List.length_cons, List.length_nil] <;> omega

/-- When the scan of one argument leaves input behind, the first
character left over is whitespace: the inner loop only stops early at
its whitespace break. -/
theorem scanArg_rest_isspace :
    ∀ (s : List Char) (squote dquote bsquote : Bool) (c : Char) (t : List Char),
      (scanArg s squote dquote bsquote).rest = c :: t → isspace c = true
  | [], _, _, _, c, t => by simp [scanArg]
  | c0 :: t0, squote, dquote, bsquote, c, t => by
    intro h
    simp only [scanArg] at h
    split_ifs at h with hws
    all_goals try simp only [consArg] at h
    all_goals first
      | exact scanArg_rest_isspace t0 _ _ _ _ _ h
      | (obtain ⟨hc, ht⟩ := List.cons.inj h
         subst hc
         simp only [Bool.and_eq_true] at hws
         exact hws.1.1.1)

/-- Each further iteration of the outer do-while loop of `buildargv`
starts on a strictly shorter input: the argument scan stops on a
whitespace character, which the trailing whitespace consumption then
removes. -/
theorem scan_next_lt (s : List Char) (squote dquote bsquote : Bool)
    (h : consume_whitespace (scanArg (consume_whitespace s) squote dquote bsquote).rest ≠ []) :
    (consume_whitespace (scanArg (consume_whitespace s) squote dquote bsquote).rest).length <
      s.length := by
  rcases hr : (scanArg (consume_whitespace s) squote dquote bsquote).rest with _ | ⟨c, t⟩
  · rw [consume_whitespace, hr] at h
    simp at h
  · have hc : isspace c = true := scanArg_rest_isspace _ _ _ _ _ _ hr
    have h1 := scanArg_le (consume_whitespace s) squote dquote bsquote
    rw [hr] at h1
    have h2 := consume_whitespace_length_le s
    have h3 := dropWhile_length_le isspace t
    have hkey : consume_whitespace (c :: t) = List.dropWhile isspace t := by
      show List.dropWhile isspace (c :: t) = List.dropWhile isspace t
      exact List.dropWhile_cons_of_pos hc
    rw [hkey]
    simp only [List.length_cons] at h1
    omega

/-- Any fuel beyond the length of the input gives the same value of
`buildargvFuel`: the fuel is an artifact of the embedding, not of the
algorithm. -/
theorem buildargvFuel_congr :
    ∀ (f1 f2 : Nat) (s : List Char) (squote dquote bsquote : Bool),
      s.length < f1 → s.length < f2 →
      buildargvFuel f1 s squote dquote bsquote = buildargvFuel f2 s squote dquote bsquote
  | 0, _, s, _, _, _ => by
    intro h1 h2
    omega
  | _ + 1, 0, s, _, _, _ => by
    intro h1 h2
    omega
  | f1 + 1, f2 + 1, s, squote, dquote, bsquote => by
    intro h1 h2
    simp only [buildargvFuel]
    by_cases hnil :
        consume_whitespace (scanArg (consume_whitespace s) squote dquote bsquote).rest = []
    · rw [if_pos hnil, if_pos hnil]
    · rw [if_neg hnil, if_neg hnil]
      have hlt := scan_next_lt s squote dquote bsquote hnil
      rw [buildargvFuel_congr f1 f2
        (consume_whitespace (scanArg (consume_whitespace s) squote dquote bsquote).rest)
        _ _ _ (by omega) (by omega)]

/-- Unfolding of the loop of `buildargv` in the case in which no input
remains after the scanned argument: the loop records the argument and
stops. -/
theorem buildargvLoop_last (s : List Char) (squote dquote bsquote : Bool)
    (h : consume_whitespace (scanArg (consume_whitespace s) squote dquote bsquote).rest = []) :
    buildargvLoop s squote dquote bsquote =
      [(scanArg (consume_whitespace s) squote dquote bsquote).arg] := by
  simp only [buildargvLoop, buildargvFuel]
  rw [if_pos h]

/-- Unfolding of the loop of `buildargv` in the case in which input
remains after the scanned argument: the loop records the argument and
restarts on the remaining input with the flags left by the scan. -/
theorem buildargvLoop_cons (s : List Char) (squote dquote bsquote : Bool)
    (h : consume_whitespace (scanArg (consume_whitespace s) squote dquote bsquote).rest ≠ []) :
    buildargvLoop s squote dquote bsquote =
      (scanArg (consume_whitespace s) squote dquote bsquote).arg ::
        buildargvLoop
          (consume_whitespace (scanArg (consume_whitespace s) squote dquote bsquote).rest)
          (scanArg (consume_whitespace s) squote dquote bsquote).squote
          (scanArg (consume_whitespace s) squote dquote bsquote).dquote
          (scanArg (consume_whitespace s) squote dquote bsquote).bsquote := by
  have hlt := scan_next_lt s squote dquote bsquote h
  simp only [buildargvLoop, buildargvFuel]
  rw [if_neg h]
  congr 1
  exact buildargvFuel_congr s.length
    ((consume_whitespace (scanArg (consume_whitespace s) squote dquote bsquote).rest).length + 1)
    _ _ _ _ (by omega) (by omega)

/-- A string that passes `only_whitespace` is dropped whole by
`consume_whitespace`. -/
theorem only_whitespace_dropWhile :
    ∀ s : List Char, only_whitespace s = true → s.dropWhile isspace = []
  | [] => by simp
  | c :: t => by
    intro h
    simp only [only_whitespace, Bool.and_eq_true] at h
    rw [List.dropWhile_cons_of_pos h.1]
    exact only_whitespace_dropWhile t h.2

/-- Claim C2: for every non-absent input that is empty or consists only
of whitespace characters, the tokenizer returns a vector with exactly
one element, the empty string: the do-while loop runs once, scans an
empty argument, and stops. -/
theorem spec_C2 (input : List Char) (h : only_whitespace input = true) :
    buildargv (some input) = some [[]] := by
  have hcw : consume_whitespace input = [] := only_whitespace_dropWhile input h
  have h1 : scanArg (consume_whitespace input) false false false =
      ⟨[], [], false, false, false⟩ := by
    rw [hcw]
    rfl
  have h2 : consume_whitespace (scanArg (consume_whitespace input) false false false).rest =
      [] := by
    rw [h1]
    rfl
  have h3 := buildargvLoop_last input false false false h2
  rw [h1] at h3
  show some (buildargvLoop input false false false) = some [[]]
  rw [h3]

/-- Claim C2 witness: the empty input and a whitespace-only input both
satisfy `only_whitespace`, and both tokenize to one empty argument. -/
theorem spec_C2_witness :
    only_whitespace [' ', ' ', ' '] = true ∧
      buildargv (some [' ', ' ', ' ']) = some [[]] :=
  ⟨by decide, spec_C2 [' ', ' ', ' '] (by decide)⟩

/-- Claim C9: tokenizing splits on unquoted whitespace and strips the
enclosing quotes, for single as well as double quotes, on the two
sample inputs of the specification. -/
theorem spec_C9 :
    buildargv (some ['a', ' ', sqChar, 'b', ' ', 'c', sqChar, ' ', 'd']) =
        some [['a'], ['b', ' ', 'c'], ['d']] ∧
      buildargv (some ['a', ' ', dqChar, 'b', ' ', 'c', dqChar, ' ', 'd']) =
        some [['a'], ['b', ' ', 'c'], ['d']] := by decide

/-- Every element of every vector produced with any amount of fuel is at
most as long as the input string. -/
theorem buildargvFuel_mem_le :
    ∀ (fuel : Nat) (s : List Char) (squote dquote bsquote : Bool) (a : List Char),
      a ∈ buildargvFuel fuel s squote dquote bsquote → a.length ≤ s.length
  | 0, s, _, _, _, a => by simp [buildargvFuel]
  | fuel + 1, s, squote, dquote, bsquote, a => by
    intro ha
    have h1 := scanArg_le (consume_whitespace s) squote dquote bsquote
    have h2 := consume_whitespace_length_le s
    simp only [buildargvFuel] at ha
    by_cases hnil :
        consume_whitespace (scanArg (consume_whitespace s) squote dquote bsquote).rest = []
    · rw [if_pos hnil] at ha
      simp only [List.mem_singleton] at ha
      subst ha
      omega
    · rw [if_neg hnil] at ha
      rcases List.mem_cons.mp ha with rfl | hmem
      · omega
      · have h3 := buildargvFuel_mem_le fuel _ _ _ _ a hmem
        have h4 := dropWhile_length_le isspace
          (scanArg (consume_whitespace s) squote dquote bsquote).rest
        have h5 : (consume_whitespace
            (scanArg (consume_whitespace s) squote dquote bsquote).rest).length ≤
              (scanArg (consume_whitespace s) squote dquote bsquote).rest.length := h4
        omega

/-- Claim C10: every argument produced by the tokenizer is at most as
long as the input string, so every write into the working buffer of
size `strlen (input) + 1` allocated by `buildargv`, including the final
terminator write, stays in bounds. -/
theorem spec_C10 (input : List Char) (out : List (List Char)) (a : List Char)
    (hout : buildargv (some input) = some out) (ha : a ∈ out) :
    a.length ≤ input.length := by
  have h0 : buildargvLoop input false false false = out := Option.some.inj hout
  rw [← h0] at ha
  exact buildargvFuel_mem_le (input.length + 1) input false false false a ha

/-- Claim C10 witness: a two-token input and one of its produced
arguments. -/
theorem spec_C10_witness : (['x'] : List Char).length ≤ (['x', ' ', 'y'] : List Char).length :=
  spec_C10 ['x', ' ', 'y'] [['x'], ['y']] ['x'] (by decide) (by decide)

/-- Claim C1 counterexample: on the four-character input quote,
backslash, letter a, quote, the claim says that the backslash inside
single quotes is copied literally and never starts escape mode, which
would give the single argument backslash-a; the code instead enters
escape mode at the backslash (the test for a backslash comes before the
single-quote handling), drops the backslash, and copies the following
quote-closing character check: the escape copies the letter a, so the
result is the single argument a. -/
theorem spec_C1_counterexample :
    buildargv (some [sqChar, bsChar, 'a', sqChar]) = some [['a']] ∧
      [['a']] ≠ [[bsChar, 'a']] := by decide

/-- Claim C1 amended: while the tokenizer is in single-quote mode with
no pending escape, a single quote closes the mode and every character
other than a backslash is copied literally; but a backslash inside
single quotes does start escape mode, and the escaped character that
follows, whatever it is, is copied literally while the backslash itself
is dropped. -/
theorem spec_C1_amended (rest : List Char) (c : Char)
    (hb : c ≠ bsChar) (hq : c ≠ sqChar) :
    scanArg (bsChar :: rest) true false false = scanArg rest true false true ∧
      scanArg (sqChar :: rest) true false false = scanArg rest false false false ∧
      scanArg (c :: rest) true false false = consArg c (scanArg rest true false false) ∧
      ∀ d : Char, scanArg (d :: rest) true false true =
        consArg d (scanArg rest true false false) := by
  refine ⟨rfl, rfl, ?_, ?_⟩
  · simp [scanArg, hb, hq]
  · intro d
    simp [scanArg]

/-- Claim C1 amended witness: the single-quote-closing equation at a
concrete character and empty remainder. -/
theorem spec_C1_witness :
    scanArg (sqChar :: []) true false false = scanArg [] false false false :=
  (spec_C1_amended [] 'x' (by decide) (by decide)).2.1

/-- Copying a string preserves its characters. -/
theorem strdupElem_self (s : List Char) : strdupElem s = s := by
  simp [strdupElem]

/-- A deep copy of a vector has the same elements as the original. -/
theorem dupargvList_self : ∀ argv : List (List Char), dupargvList argv = argv
  | [] => rfl
  | x :: t => by
    have ih := dupargvList_self t
    simp only [dupargvList, List.map_cons, strdupElem_self] at *
    rw [ih]

/-- The scan loop of `expandargv` stops and returns the current vector
and ownership flag once the cursor passes the last element. -/
theorem expandLoop_end (fs : List Char → FsEntry) (i : Nat) (argv : List (List Char))
    (limit : Nat) (copied : Bool) (h : ¬ (i + 1 < argv.length)) :
    expandLoop fs i argv limit copied = Except.ok (argv, copied) := by
  conv_lhs => unfold expandLoop
  rw [dif_neg h]

/-- An element that does not begin with the reference marker is passed
over: the loop moves to the next element with the vector, budget and
ownership flag unchanged. -/
theorem expandLoop_skip (fs : List Char → FsEntry) (i : Nat) (argv : List (List Char))
    (limit : Nat) (copied : Bool) (h : i + 1 < argv.length)
    (hx : (argv.getD (i + 1) []).head? ≠ some '@') :
    expandLoop fs i argv limit copied = expandLoop fs (i + 1) argv limit copied := by
  conv_lhs => unfold expandLoop
  rw [dif_pos h]
  rcases hv : argv.getD (i + 1) [] with _ | ⟨c0, t0⟩
  · rfl
  · have hc0 : c0 ≠ '@' := by
      rw [hv] at hx
      simpa using hx
    split
    · rename_i path heq
      exact absurd (List.cons.inj heq).1 hc0
    · rfl

/-- Unfolding of the loop at a reference-marker element: what remains is
the budget test followed by the four file-system outcomes. -/
theorem expandLoop_at (fs : List Char → FsEntry) (i : Nat) (argv : List (List Char))
    (limit : Nat) (copied : Bool) (path : List Char) (h : i + 1 < argv.length)
    (hv : argv.getD (i + 1) [] = '@' :: path) :
    expandLoop fs i argv limit copied =
      if limit - 1 = 0 then Except.error AbortReason.tooManyAtFiles
      else
        match fs path with
        | FsEntry.missing => expandLoop fs (i + 1) argv (limit - 1) copied
        | FsEntry.unreadable => expandLoop fs (i + 1) argv (limit - 1) copied
        | FsEntry.directory => Except.error AbortReason.atFileIsDirectory
        | FsEntry.readable contents =>
          expandLoop fs i
            ((if copied then argv else dupargvList argv).take (i + 1) ++
              (if only_whitespace contents then []
                else buildargvLoop contents false false false) ++
              (if copied then argv else dupargvList argv).drop (i + 2))
            (limit - 1) true := by
  conv_lhs => unfold expandLoop
  rw [dif_pos h, hv]
  rfl

/-- The budget is decremented at every reference-marker element; when it
hits zero the whole operation aborts with the excessive-nesting
diagnostic before looking at the file system. -/
theorem expandLoop_tooMany (fs : List Char → FsEntry) (i : Nat) (argv : List (List Char))
    (limit : Nat) (copied : Bool) (path : List Char) (h : i + 1 < argv.length)
    (hv : argv.getD (i + 1) [] = '@' :: path) (hl : limit - 1 = 0) :
    expandLoop fs i argv limit copied = Except.error AbortReason.tooManyAtFiles := by
  rw [expandLoop_at fs i argv limit copied path h hv, if_pos hl]

/-- A reference whose path cannot be statted is skipped: the element is
left in place and scanning continues at the next element. -/
theorem expandLoop_missing (fs : List Char → FsEntry) (i : Nat) (argv : List (List Char))
    (limit : Nat) (copied : Bool) (path : List Char) (h : i + 1 < argv.length)
    (hv : argv.getD (i + 1) [] = '@' :: path) (hl : ¬ (limit - 1 = 0))
    (hfs : fs path = FsEntry.missing) :
    expandLoop fs i argv limit copied = expandLoop fs (i + 1) argv (limit - 1) copied := by
  rw [expandLoop_at fs i argv limit copied path h hv, if_neg hl, hfs]

/-- A reference whose path stats but cannot be opened or read is skipped
exactly like a missing one. -/
theorem expandLoop_unreadable (fs : List Char → FsEntry) (i : Nat) (argv : List (List Char))
    (limit : Nat) (copied : Bool) (path : List Char) (h : i + 1 < argv.length)
    (hv : argv.getD (i + 1) [] = '@' :: path) (hl : ¬ (limit - 1 = 0))
    (hfs : fs path = FsEntry.unreadable) :
    expandLoop fs i argv limit copied = expandLoop fs (i + 1) argv (limit - 1) copied := by
  rw [expandLoop_at fs i argv limit copied path h hv, if_neg hl, hfs]

/-- A reference whose path is a directory aborts the whole operation
with the directory diagnostic. -/
theorem expandLoop_dirAbort (fs : List Char → FsEntry) (i : Nat) (argv : List (List Char))
    (limit : Nat) (copied : Bool) (path : List Char) (h : i + 1 < argv.length)
    (hv : argv.getD (i + 1) [] = '@' :: path) (hl : ¬ (limit - 1 = 0))
    (hfs : fs path = FsEntry.directory) :
    expandLoop fs i argv limit copied = Except.error AbortReason.atFileIsDirectory := by
  rw [expandLoop_at fs i argv limit copied path h hv, if_neg hl, hfs]

/-- A reference to a readable file is spliced: the element at the
examined position is replaced by the tokenized file contents (no
elements for a whitespace-only file), the budget is decremented, the
vector is owned from now on, and the cursor stays so that the first
spliced element is examined next.  The copy-on-first-write duplication
is value-preserving, so the pre-splice vector can be written directly. -/
theorem expandLoop_readable (fs : List Char → FsEntry) (i : Nat) (argv : List (List Char))
    (limit : Nat) (copied : Bool) (path contents : List Char) (h : i + 1 < argv.length)
    (hv : argv.getD (i + 1) [] = '@' :: path) (hl : ¬ (limit - 1 = 0))
    (hfs : fs path = FsEntry.readable contents) :
    expandLoop fs i argv limit copied =
      expandLoop fs i
        (argv.take (i + 1) ++
          (if only_whitespace contents then [] else buildargvLoop contents false false false) ++
          argv.drop (i + 2))
        (limit - 1) true := by
  rw [expandLoop_at fs i argv limit copied path h hv, if_neg hl, hfs]
  simp only [dupargvList_self, ite_self]

/-- Scanning a tail made of reference-marker elements that all name the
same unstattable path: each candidate costs one unit of budget, nothing
is spliced, and the run aborts exactly when the number of candidates
reaches the budget. -/
theorem expandLoop_replicate (fs : List Char → FsEntry) (path : List Char)
    (hfs : fs path = FsEntry.missing) :
    ∀ (n : Nat) (front : List (List Char)) (i limit : Nat) (copied : Bool),
      front.length = i + 1 → 1 ≤ limit →
      expandLoop fs i (front ++ List.replicate n ('@' :: path)) limit copied =
        if limit ≤ n then Except.error AbortReason.tooManyAtFiles
        else Except.ok (front ++ List.replicate n ('@' :: path), copied) := by
  intro n
  induction n with
  | zero =>
    intro front i limit copied hf hl
    have hend : ¬ (i + 1 < (front ++ List.replicate 0 ('@' :: path)).length) := by
      simp [hf]
    rw [expandLoop_end fs i _ limit copied hend, if_neg (by omega)]
  | succ n ih =>
    intro front i limit copied hf hl
    have hlen : i + 1 < (front ++ List.replicate (n + 1) ('@' :: path)).length := by
      rw [List.length_append, List.length_replicate, hf]
      omega
    have hv : (front ++ List.replicate (n + 1) ('@' :: path)).getD (i + 1) [] = '@' :: path := by
      rw [List.getD_append_right front _ [] (i + 1) (by omega), hf, Nat.sub_self,
        List.replicate_succ, List.getD_cons_zero]
    by_cases hl0 : limit - 1 = 0
    · rw [expandLoop_tooMany fs i _ limit copied path hlen hv hl0, if_pos (by omega)]
    · rw [expandLoop_missing fs i _ limit copied path hlen hv hl0 hfs]
      have hassoc : front ++ List.replicate (n + 1) ('@' :: path) =
          (front ++ ['@' :: path]) ++ List.replicate n ('@' :: path) := by
        simp [List.replicate_succ]
      rw [hassoc]
      rw [ih (front ++ ['@' :: path]) (i + 1) (limit - 1) copied
        (by simp only [List.length_append, List.length_cons, List.length_nil, hf])
        (by omega)]
      by_cases hc : limit ≤ n + 1
      · rw [if_pos (by omega), if_pos hc]
      · rw [if_neg (by omega), if_neg hc]

/-- Claim C3: the budget starts at 2000 and is spent once per candidate
reference whether or not the file resolves; on a vector whose tail is n
candidate references to an unstattable file, the run aborts with the
excessive-nesting diagnostic exactly when n reaches 2000, and completes
normally for any smaller n. -/
theorem spec_C3 (fs : List Char → FsEntry) (prog path : List Char) (n : Nat)
    (hfs : fs path = FsEntry.missing) :
    expandargv fs (prog :: List.replicate n ('@' :: path)) =
        Except.error AbortReason.tooManyAtFiles ↔ 2000 ≤ n := by
  have h := expandLoop_replicate fs path hfs n [prog] 0 2000 false rfl (by omega)
  have h2 : expandargv fs (prog :: List.replicate n ('@' :: path)) =
      if 2000 ≤ n then Except.error AbortReason.tooManyAtFiles
      else Except.ok (prog :: List.replicate n ('@' :: path), false) := by
    show expandLoop fs 0 (prog :: List.replicate n ('@' :: path)) 2000 false = _
    simpa using h
  by_cases hn : 2000 ≤ n
  · rw [h2, if_pos hn]
    simp [hn]
  · rw [h2, if_neg hn]
    simp [hn]

/-- Claim C3 witness: two thousand references to a missing file abort
the whole expansion. -/
theorem spec_C3_witness :
    expandargv (fun _ => FsEntry.missing) (['p'] :: List.replicate 2000 ('@' :: ['f'])) =
      Except.error AbortReason.tooManyAtFiles :=
  (spec_C3 (fun _ => FsEntry.missing) ['p'] ['f'] 2000 rfl).mpr (by omega)

/-- Claim C7: a candidate whose path cannot be statted, and a candidate
whose path stats but cannot be opened, are both left untouched, with
scanning resuming at the next element of the unchanged vector. -/
theorem spec_C7 (fs : List Char → FsEntry) (i : Nat) (argv : List (List Char))
    (limit : Nat) (copied : Bool) (path : List Char) (h : i + 1 < argv.length)
    (hv : argv.getD (i + 1) [] = '@' :: path) (hl : limit - 1 ≠ 0) :
    (fs path = FsEntry.missing →
        expandLoop fs i argv limit copied = expandLoop fs (i + 1) argv (limit - 1) copied) ∧
      (fs path = FsEntry.unreadable →
        expandLoop fs i argv limit copied = expandLoop fs (i + 1) argv (limit - 1) copied) :=
  ⟨fun hfs => expandLoop_missing fs i argv limit copied path h hv hl hfs,
    fun hfs => expandLoop_unreadable fs i argv limit copied path h hv hl hfs⟩

/-- Claim C7 witness: one missing-file candidate at a concrete vector. -/
theorem spec_C7_witness :
    expandLoop (fun _ => FsEntry.missing) 0 [['p'], ['@', 'f']] 2000 false =
      expandLoop (fun _ => FsEntry.missing) 1 [['p'], ['@', 'f']] 1999 false :=
  (spec_C7 (fun _ => FsEntry.missing) 0 [['p'], ['@', 'f']] 2000 false ['f'] (by decide)
    (by decide) (by decide)).1 rfl

/-- A directory reference is fatal from any position: the elements
before it that are not reference markers are skipped without spending
budget, and the directory candidate then aborts the run. -/
theorem expandLoop_dirPos (fs : List Char → FsEntry) (path : List Char)
    (hfs : fs path = FsEntry.directory) :
    ∀ (pre : List (List Char)), (∀ y ∈ pre, y.head? ≠ some '@') →
      ∀ (front : List (List Char)) (i limit : Nat) (copied : Bool) (post : List (List Char)),
        front.length = i + 1 → 2 ≤ limit →
        expandLoop fs i (front ++ pre ++ ('@' :: path) :: post) limit copied =
          Except.error AbortReason.atFileIsDirectory := by
  intro pre
  induction pre with
  | nil =>
    intro hpre front i limit copied post hf hl
    have hlen : i + 1 < (front ++ [] ++ ('@' :: path) :: post).length := by
      simp only [List.length_append, List.length_cons, List.length_nil, hf]
      omega
    have hv : (front ++ [] ++ ('@' :: path) :: post).getD (i + 1) [] = '@' :: path := by
      have h0 : front ++ [] ++ ('@' :: path) :: post = front ++ ('@' :: path) :: post := by
        simp
      rw [h0, List.getD_append_right front _ [] (i + 1) (by omega), hf, Nat.sub_self,
        List.getD_cons_zero]
    exact expandLoop_dirAbort fs i _ limit copied path hlen hv (by omega) hfs
  | cons x pre ih =>
    intro hpre front i limit copied post hf hl
    have hassoc : front ++ (x :: pre) ++ ('@' :: path) :: post =
        (front ++ [x]) ++ pre ++ ('@' :: path) :: post := by
      simp
    rw [hassoc]
    have hlen : i + 1 < ((front ++ [x]) ++ pre ++ ('@' :: path) :: post).length := by
      simp only [List.length_append, List.length_cons, List.length_nil, hf]
      omega
    have hv : ((front ++ [x]) ++ pre ++ ('@' :: path) :: post).getD (i + 1) [] = x := by
      have h0 : (front ++ [x]) ++ pre ++ ('@' :: path) :: post =
          front ++ (x :: (pre ++ ('@' :: path) :: post)) := by
        simp
      rw [h0, List.getD_append_right front _ [] (i + 1) (by omega), hf, Nat.sub_self,
        List.getD_cons_zero]
    rw [expandLoop_skip fs i _ limit copied hlen
      (by rw [hv]; exact hpre x (List.mem_cons_self x pre))]
    exact ih (fun y hy => hpre y (List.mem_cons_of_mem x hy)) (front ++ [x]) (i + 1) limit
      copied post
      (by simp only [List.length_append, List.length_cons, List.length_nil, hf]) hl

/-- Claim C8: a candidate reference naming a directory aborts the whole
operation with the directory diagnostic, wherever it sits in the vector
(here: after the program name and any run of ordinary arguments). -/
theorem spec_C8 (fs : List Char → FsEntry) (prog path : List Char)
    (pre post : List (List Char)) (hpre : ∀ y ∈ pre, y.head? ≠ some '@')
    (hfs : fs path = FsEntry.directory) :
    expandargv fs ((prog :: pre) ++ ('@' :: path) :: post) =
      Except.error AbortReason.atFileIsDirectory := by
  show expandLoop fs 0 ((prog :: pre) ++ ('@' :: path) :: post) 2000 false = _
  exact expandLoop_dirPos fs path hfs pre hpre [prog] 0 2000 false post rfl (by omega)

/-- Claim C8 witness: a directory reference in third position aborts. -/
theorem spec_C8_witness :
    expandargv (fun _ => FsEntry.directory) ((['p'] :: [['-', 'x']]) ++ ('@' :: ['d']) :: [['y']]) =
      Except.error AbortReason.atFileIsDirectory :=
  spec_C8 (fun _ => FsEntry.directory) ['p'] ['d'] [['-', 'x']] [['y']] (by decide) rfl

/-- While the ownership flag is false the loop has not touched the
vector: if a run ends with the flag still false, the flag was false on
entry and the vector returned is exactly the vector the run started
with.  Since the flag is set at every splice before any mutation, every
mutation happens after the copy-on-first-write duplication. -/
theorem expandLoop_unchanged (fs : List Char → FsEntry) :
    ∀ (limit : Nat), ∀ (fuel : Nat), ∀ (i : Nat) (argv : List (List Char)) (copied : Bool)
      (v : List (List Char)) (c2 : Bool),
      argv.length - i ≤ fuel →
      expandLoop fs i argv limit copied = Except.ok (v, c2) → c2 = false →
      copied = false ∧ v = argv := by
  intro limit
  induction limit using Nat.strong_induction_on with
  | _ limit IH =>
    intro fuel
    induction fuel with
    | zero =>
      intro i argv copied v c2 hf he hc2
      rw [expandLoop_end fs i argv limit copied (by omega)] at he
      have h1 := Except.ok.inj he
      exact ⟨(congrArg Prod.snd h1).trans hc2, (congrArg Prod.fst h1).symm⟩
    | succ fuel ihf =>
      intro i argv copied v c2 hf he hc2
      by_cases h : i + 1 < argv.length
      · rcases hv : argv.getD (i + 1) [] with _ | ⟨c0, t0⟩
        · rw [expandLoop_skip fs i argv limit copied h (by rw [hv]; simp)] at he
          exact ihf (i + 1) argv copied v c2 (by omega) he hc2
        · by_cases hat : c0 = '@'
          · subst hat
            by_cases hl0 : limit - 1 = 0
            · rw [expandLoop_tooMany fs i argv limit copied t0 h hv hl0] at he
              exact Except.noConfusion he
            · cases hfs : fs t0 with
              | missing =>
                rw [expandLoop_missing fs i argv limit copied t0 h hv hl0 hfs] at he
                exact IH (limit - 1) (by omega) argv.length (i + 1) argv copied v c2
                  (by omega) he hc2
              | unreadable =>
                rw [expandLoop_unreadable fs i argv limit copied t0 h hv hl0 hfs] at he
                exact IH (limit - 1) (by omega) argv.length (i + 1) argv copied v c2
                  (by omega) he hc2
              | directory =>
                rw [expandLoop_dirAbort fs i argv limit copied t0 h hv hl0 hfs] at he
                exact Except.noConfusion he
              | readable w =>
                rw [expandLoop_readable fs i argv limit copied t0 w h hv hl0 hfs] at he
                have hres := IH (limit - 1) (by omega)
                  (argv.take (i + 1) ++
                    (if only_whitespace w then [] else buildargvLoop w false false false) ++
                    argv.drop (i + 2)).length i
                  (argv.take (i + 1) ++
                    (if only_whitespace w then [] else buildargvLoop w false false false) ++
                    argv.drop (i + 2)) true v c2 (by omega) he hc2
                exact absurd hres.1 (by simp)
          · rw [expandLoop_skip fs i argv limit copied h (by rw [hv]; simpa using hat)] at he
            exact ihf (i + 1) argv copied v c2 (by omega) he hc2
      · rw [expandLoop_end fs i argv limit copied h] at he
        have h1 := Except.ok.inj he
        exact ⟨(congrArg Prod.snd h1).trans hc2, (congrArg Prod.fst h1).symm⟩

/-- Claim C4: when a whole call of `expandargv` performs no
substitution, the flag that models the pointer comparison with the
original vector is still false and the vector returned is the original
one, unchanged; the flag becomes true, after the value-preserving deep
copy, at the first substitution and stays true, so every mutation is on
the copy. -/
theorem spec_C4 (fs : List Char → FsEntry) (argv v : List (List Char)) (c2 : Bool)
    (he : expandargv fs argv = Except.ok (v, c2)) (hc : c2 = false) : v = argv :=
  (expandLoop_unchanged fs 2000 argv.length 0 argv false v c2 (by omega) he hc).2

/-- Claim C4 witness: a vector with no references is returned unchanged
and still caller-owned. -/
theorem spec_C4_witness :
    expandargv (fun _ => FsEntry.missing) [['p'], ['a']] = Except.ok ([['p'], ['a']], false) ∧
      ([['p'], ['a']] : List (List Char)) = [['p'], ['a']] := by
  have he : expandargv (fun _ => FsEntry.missing) [['p'], ['a']] =
      Except.ok ([['p'], ['a']], false) := by
    show expandLoop (fun _ => FsEntry.missing) 0 [['p'], ['a']] 2000 false = _
    rw [expandLoop_skip (fun _ => FsEntry.missing) 0 [['p'], ['a']] 2000 false (by decide)
      (by decide)]
    exact expandLoop_end (fun _ => FsEntry.missing) 1 [['p'], ['a']] 2000 false (by decide)
  exact ⟨he, spec_C4 (fun _ => FsEntry.missing) [['p'], ['a']] [['p'], ['a']] false he rfl⟩

/-- Claim C5: a reference to a readable file whose contents pass
`only_whitespace` is replaced by zero elements: the reference vanishes
and the count drops by one, unlike the single empty argument the
tokenizer would produce for the same text. -/
theorem spec_C5 (fs : List Char → FsEntry) (prog x y path w : List Char)
    (hx : x.head? ≠ some '@') (hy : y.head? ≠ some '@')
    (hw : only_whitespace w = true) (hfs : fs path = FsEntry.readable w) :
    expandargv fs [prog, x, '@' :: path, y] = Except.ok ([prog, x, y], true) ∧
      ([prog, x, y] : List (List Char)).length =
        ([prog, x, '@' :: path, y] : List (List Char)).length - 1 := by
  constructor
  · show expandLoop fs 0 [prog, x, '@' :: path, y] 2000 false = _
    rw [expandLoop_skip fs 0 [prog, x, '@' :: path, y] 2000 false (by simp) hx]
    rw [expandLoop_readable fs 1 [prog, x, '@' :: path, y] 2000 false path w (by simp) rfl
      (by decide) hfs]
    rw [show (if only_whitespace w then ([] : List (List Char))
        else buildargvLoop w false false false) = [] from by simp [hw]]
    rw [show List.take (1 + 1) [prog, x, '@' :: path, y] ++ ([] : List (List Char)) ++
        List.drop (1 + 2) [prog, x, '@' :: path, y] = [prog, x, y] from rfl]
    rw [expandLoop_skip fs 1 [prog, x, y] (2000 - 1) true (by simp) hy]
    exact expandLoop_end fs 2 [prog, x, y] (2000 - 1) true (by simp)
  · rfl

/-- Claim C5 witness: the specification example with a whitespace-only
response file. -/
theorem spec_C5_witness :
    expandargv (fun _ => FsEntry.readable [' ']) [['p'], ['-', 'x'], '@' :: ['r'], ['-', 'y']] =
        Except.ok ([['p'], ['-', 'x'], ['-', 'y']], true) ∧
      ([['p'], ['-', 'x'], ['-', 'y']] : List (List Char)).length =
        ([['p'], ['-', 'x'], '@' :: ['r'], ['-', 'y']] : List (List Char)).length - 1 :=
  spec_C5 (fun _ => FsEntry.readable [' ']) ['p'] ['-', 'x'] ['-', 'y'] ['r'] [' ']
    (by decide) (by decide) (by decide) rfl

/-- Claim C6: a substitution replaces the one examined element by the
whole tokenized replacement, later elements shift, the count becomes
the old count plus the replacement length minus one, and the cursor
stays put so that the first inserted element (or, for an empty
replacement, whatever now occupies the slot) is examined next; the
second conjunct runs the specification example, where a file holding
the text dash a space dash b turns a four-element vector into a
five-element one. -/
theorem spec_C6 :
    (∀ (fs : List Char → FsEntry) (i : Nat) (argv : List (List Char)) (limit : Nat)
        (copied : Bool) (path w : List Char),
        ∀ h : i + 1 < argv.length,
        argv.getD (i + 1) [] = '@' :: path →
        limit - 1 ≠ 0 →
        fs path = FsEntry.readable w →
        only_whitespace w = false →
        (expandLoop fs i argv limit copied =
            expandLoop fs i
              (argv.take (i + 1) ++ buildargvLoop w false false false ++ argv.drop (i + 2))
              (limit - 1) true ∧
          (argv.take (i + 1) ++ buildargvLoop w false false false ++ argv.drop (i + 2)).length =
            argv.length + (buildargvLoop w false false false).length - 1 ∧
          (argv.take (i + 1) ++ buildargvLoop w false false false ++
              argv.drop (i + 2)).drop (i + 1) =
            buildargvLoop w false false false ++ argv.drop (i + 2))) ∧
      expandargv respFs [['p'], ['-', 'x'], ['@', 'r'], ['-', 'y']] =
        Except.ok ([['p'], ['-', 'x'], ['-', 'a'], ['-', 'b'], ['-', 'y']], true) := by
  constructor
  · intro fs i argv limit copied path w h hv hl hfs hw
    have htake : (argv.take (i + 1)).length = i + 1 := by
      rw [List.length_take]
      omega
    refine ⟨?_, ?_, ?_⟩
    · rw [expandLoop_readable fs i argv limit copied path w h hv hl hfs,
        show (if only_whitespace w then ([] : List (List Char))
          else buildargvLoop w false false false) = buildargvLoop w false false false from
          by simp [hw]]
    · simp only [List.length_append, htake, List.length_drop]
      omega
    · rw [List.append_assoc]
      exact List.drop_left' htake
  · show expandLoop respFs 0 [['p'], ['-', 'x'], ['@', 'r'], ['-', 'y']] 2000 false = _
    rw [expandLoop_skip respFs 0 [['p'], ['-', 'x'], ['@', 'r'], ['-', 'y']] 2000 false
      (by decide) (by decide)]
    rw [expandLoop_readable respFs 1 [['p'], ['-', 'x'], ['@', 'r'], ['-', 'y']] 2000 false
      ['r'] ['-', 'a', ' ', '-', 'b'] (by decide) (by decide) (by decide) (by decide)]
    rw [show (if only_whitespace ['-', 'a', ' ', '-', 'b'] then ([] : List (List Char))
        else buildargvLoop ['-', 'a', ' ', '-', 'b'] false false false) =
        [['-', 'a'], ['-', 'b']] from by decide]
    rw [show List.take (1 + 1) [['p'], ['-', 'x'], ['@', 'r'], ['-', 'y']] ++
        [['-', 'a'], ['-', 'b']] ++
        List.drop (1 + 2) [['p'], ['-', 'x'], ['@', 'r'], ['-', 'y']] =
        [['p'], ['-', 'x'], ['-', 'a'], ['-', 'b'], ['-', 'y']] from rfl]
    rw [expandLoop_skip respFs 1 [['p'], ['-', 'x'], ['-', 'a'], ['-', 'b'], ['-', 'y']]
      (2000 - 1) true (by decide) (by decide)]
    rw [expandLoop_skip respFs 2 [['p'], ['-', 'x'], ['-', 'a'], ['-', 'b'], ['-', 'y']]
      (2000 - 1) true (by decide) (by decide)]
    rw [expandLoop_skip respFs 3 [['p'], ['-', 'x'], ['-', 'a'], ['-', 'b'], ['-', 'y']]
      (2000 - 1) true (by decide) (by decide)]
    exact expandLoop_end respFs 4 [['p'], ['-', 'x'], ['-', 'a'], ['-', 'b'], ['-', 'y']]
      (2000 - 1) true (by decide)

/-- Claim C6 witness: the splice equation at the concrete example
vector, with the replacement spliced in, the budget spent, the vector
owned, and the cursor back on the first inserted element. -/
theorem spec_C6_witness :
    expandLoop respFs 1 [['p'], ['-', 'x'], ['@', 'r'], ['-', 'y']] 2000 false =
      expandLoop respFs 1 [['p'], ['-', 'x'], ['-', 'a'], ['-', 'b'], ['-', 'y']] 1999 true :=
  (spec_C6.1 respFs 1 [['p'], ['-', 'x'], ['@', 'r'], ['-', 'y']] 2000 false ['r']
    ['-', 'a', ' ', '-', 'b'] (by decide) (by decide) (by decide) (by decide) (by decide)).1
